import Mathlib

/-!
Verification of the confidential-balance (veiled coin) cryptographic core.

The Ristretto255 group is cyclic of prime order ℓ, so we embed it by its
discrete logarithms: a point is an element of `ZMod L` (its logarithm with
respect to the base point), `RistrettoPoint.BASE` is `1`, point addition is
`+`, point subtraction is `-`, the identity `RistrettoPoint.ZERO` is `0`,
and scalar multiplication `P.multiply(k)` is `k * P`.  The independent
generator `H_RISTRETTO` has an unknown discrete logarithm, so every
definition that uses it takes it as an explicit parameter `h`.  Scalars are
likewise `ZMod L` (the source reduces scalar byte strings mod ℓ before
using them).  Canonical 32-byte encodings of scalars and points are
injective, so value-level equality models byte-level equality.
-/

namespace VeiledSpec

/-- Order of the Ristretto255 scalar field, `ed25519.CURVE.n` in the source:
the prime ℓ = 2^252 + 27742317777372353535851937790883648493. -/
def L : ℕ := 2 ^ 252 + 27742317777372353535851937790883648493

instance : NeZero L := ⟨by decide⟩

instance : Fact (1 < L) := ⟨by norm_num [L]⟩

/-- Points of the Ristretto255 group in the discrete-log embedding. -/
abbrev Point := ZMod L

/-- `RistrettoPoint.BASE` in the discrete-log embedding. -/
def basePoint : Point := 1

/-- Modelled from the spec: `TwistedEd25519PrivateKey.publicKey()` lives in
`twistedEd25519.ts`, which is not among the provided sources.  The spec
defines the encryption key of the decryption key `s` as `P = (1/s)·H`
(twisted form, via the generator `H`, passed here as `h`). -/
def publicKeyOfSecret (h s : ZMod L) : Point := s⁻¹ * h

/-- `TwistedElGamalCiphertext` (twistedElGamal.ts lines 164-201): the pair of
points `(C, D)`. -/
structure TwistedElGamalCiphertext where
  C : Point
  D : Point
deriving DecidableEq

namespace TwistedElGamalCiphertext

/-- `addAmount` (twistedElGamal.ts lines 174-179): `(C + a·G, D)`. -/
def addAmount (ct : TwistedElGamalCiphertext) (amount : ℤ) : TwistedElGamalCiphertext :=
  ⟨ct.C + (amount : ZMod L) * basePoint, ct.D⟩

/-- `subtractAmount` (twistedElGamal.ts lines 181-186): `(C - a·G, D)`. -/
def subtractAmount (ct : TwistedElGamalCiphertext) (amount : ℤ) : TwistedElGamalCiphertext :=
  ⟨ct.C - (amount : ZMod L) * basePoint, ct.D⟩

/-- `addCiphertext` (twistedElGamal.ts lines 188-193): `(C₁+C₂, D₁+D₂)`. -/
def addCiphertext (ct : TwistedElGamalCiphertext) (other : TwistedElGamalCiphertext) :
    TwistedElGamalCiphertext :=
  ⟨ct.C + other.C, ct.D + other.D⟩

/-- `subtractCiphertext` (twistedElGamal.ts lines 195-200): `(C₁-C₂, D₁-D₂)`. -/
def subtractCiphertext (ct : TwistedElGamalCiphertext) (other : TwistedElGamalCiphertext) :
    TwistedElGamalCiphertext :=
  ⟨ct.C - other.C, ct.D - other.D⟩

end TwistedElGamalCiphertext

namespace TwistedElGamal

/-- The ciphertext computation of `encryptWithPK` (twistedElGamal.ts lines
69-79): `D = P·r`, `C = m·G + r·H`.  The randomness parameter `r` is the
32-byte random string already reduced mod ℓ (line 72 of the source). -/
def encryptCore (h : Point) (amount : ℤ) (publicKey : Point) (r : ZMod L) :
    TwistedElGamalCiphertext :=
  let rH := r * h
  let mG := (amount : ZMod L) * basePoint
  let D := publicKey * r
  let C := mG + rH
  ⟨C, D⟩

/-- `TwistedElGamal.encryptWithPK` (twistedElGamal.ts lines 65-80).  The
guard is transcribed exactly as written in the source:
`if (amount < 0n && amount >= ed25519.CURVE.n) throw ...`
(note the conjunction). -/
def encryptWithPK (h : Point) (amount : ℤ) (publicKey : Point) (r : ZMod L) :
    Except String TwistedElGamalCiphertext :=
  if amount < 0 ∧ (L : ℤ) ≤ amount then
    Except.error "The amount must be in the range 0 to l"
  else
    Except.ok (encryptCore h amount publicKey r)

/-- The brute-force discrete-log loop of `decryptWithPK` (twistedElGamal.ts
lines 106-115): starting from `amount`, while `m·G ≠ mH`, throw (`none`) once
`amount ≥ endAmount`, else increment.  Note the equality test happens before
the bound test, exactly as in the `while` loop of the source. -/
def searchLoop (mH : Point) (endAmount : ℕ) (amount : ℕ) : Option ℕ :=
  if (amount : ZMod L) * basePoint = mH then some amount
  else if endAmount ≤ amount then none
  else searchLoop mH endAmount (amount + 1)
termination_by endAmount + 1 - amount
decreasing_by omega

/-- `TwistedElGamal.decryptWithPK` (twistedElGamal.ts lines 88-116) for a
decryption range `{start, end}` (defaults `start = 0`, `end = ℓ` are applied
by the caller).  `none` models the thrown out-of-range error. -/
def decryptWithPK (ciphertext : TwistedElGamalCiphertext) (privateKey : ZMod L)
    (start endAmount : ℕ) : Option ℕ :=
  let sD := ciphertext.D * privateKey
  let mH := ciphertext.C - sD
  if start = 0 then
    if mH = 0 then some 0 else searchLoop mH endAmount 1
  else searchLoop mH endAmount start

end TwistedElGamal

/-! ### Arithmetic helper lemmas -/

theorem two_pow_32_lt_L : 2 ^ 32 < L := by norm_num [L]

theorem natCast_inj_of_lt {a b : ℕ} (ha : a < L) (hb : b < L)
    (h : (a : ZMod L) = b) : a = b := by
  have h2 := congrArg ZMod.val h
  rwa [ZMod.val_natCast_of_lt ha, ZMod.val_natCast_of_lt hb] at h2

/-! ### Search-loop lemmas -/

theorem searchLoop_finds (mH : Point) (endA m : ℕ)
    (hmG : (m : ZMod L) * basePoint = mH) (hend : m ≤ endA) :
    ∀ a, a ≤ m → (∀ k, a ≤ k → k < m → (k : ZMod L) * basePoint ≠ mH) →
      TwistedElGamal.searchLoop mH endA a = some m := by
  have main : ∀ n a, m - a = n → a ≤ m →
      (∀ k, a ≤ k → k < m → (k : ZMod L) * basePoint ≠ mH) →
      TwistedElGamal.searchLoop mH endA a = some m := by
    intro n
    induction n with
    | zero =>
      intro a h0 ha _
      have ham : a = m := by omega
      subst ham
      rw [TwistedElGamal.searchLoop, if_pos hmG]
    | succ n ih =>
      intro a hs ha hmin
      have ham : a < m := by omega
      rw [TwistedElGamal.searchLoop, if_neg (hmin a le_rfl ham),
        if_neg (by omega : ¬ endA ≤ a)]
      exact ih (a + 1) (by omega) (by omega)
        (fun k hk1 hk2 => hmin k (by omega) hk2)
  exact fun a ha hmin => main (m - a) a rfl ha hmin

theorem searchLoop_some (mH : Point) (endA : ℕ) :
    ∀ a, a ≤ endA → ∀ m, TwistedElGamal.searchLoop mH endA a = some m →
      (m : ZMod L) * basePoint = mH ∧ a ≤ m ∧ m ≤ endA ∧
      ∀ k, a ≤ k → k < m → (k : ZMod L) * basePoint ≠ mH := by
  have main : ∀ n a, endA - a = n → a ≤ endA →
      ∀ m, TwistedElGamal.searchLoop mH endA a = some m →
      (m : ZMod L) * basePoint = mH ∧ a ≤ m ∧ m ≤ endA ∧
      ∀ k, a ≤ k → k < m → (k : ZMod L) * basePoint ≠ mH := by
    intro n
    induction n with
    | zero =>
      intro a h0 ha m hres
      rw [TwistedElGamal.searchLoop] at hres
      by_cases hc : (a : ZMod L) * basePoint = mH
      · rw [if_pos hc] at hres
        obtain rfl : a = m := by exact Option.some.inj hres
        exact ⟨hc, le_rfl, ha, fun k hk1 hk2 => by omega⟩
      · rw [if_neg hc, if_pos (by omega : endA ≤ a)] at hres
        exact absurd hres (by simp)
    | succ n ih =>
      intro a hs ha m hres
      rw [TwistedElGamal.searchLoop] at hres
      by_cases hc : (a : ZMod L) * basePoint = mH
      · rw [if_pos hc] at hres
        obtain rfl : a = m := by exact Option.some.inj hres
        exact ⟨hc, le_rfl, ha, fun k hk1 hk2 => by omega⟩
      · rw [if_neg hc, if_neg (by omega : ¬ endA ≤ a)] at hres
        obtain ⟨h1, h2, h3, h4⟩ := ih (a + 1) (by omega) (by omega) m hres
        refine ⟨h1, by omega, h3, fun k hk1 hk2 => ?_⟩
        rcases Nat.eq_or_lt_of_le hk1 with rfl | hk
        · exact hc
        · exact h4 k (by omega) hk2
  exact fun a ha m hres => main (endA - a) a rfl ha m hres

theorem searchLoop_none (mH : Point) (endA : ℕ) :
    ∀ a, TwistedElGamal.searchLoop mH endA a = none →
      ∀ k, a ≤ k → k ≤ endA → (k : ZMod L) * basePoint ≠ mH := by
  have main : ∀ n a, endA - a = n → TwistedElGamal.searchLoop mH endA a = none →
      ∀ k, a ≤ k → k ≤ endA → (k : ZMod L) * basePoint ≠ mH := by
    intro n
    induction n with
    | zero =>
      intro a h0 hres k hk1 hk2
      rw [TwistedElGamal.searchLoop] at hres
      by_cases hc : (a : ZMod L) * basePoint = mH
      · rw [if_pos hc] at hres; exact absurd hres (by simp)
      · obtain rfl : k = a := by omega
        exact hc
    | succ n ih =>
      intro a hs hres k hk1 hk2
      rw [TwistedElGamal.searchLoop] at hres
      by_cases hc : (a : ZMod L) * basePoint = mH
      · rw [if_pos hc] at hres; exact absurd hres (by simp)
      · rw [if_neg hc, if_neg (by omega : ¬ endA ≤ a)] at hres
        rcases Nat.eq_or_lt_of_le hk1 with rfl | hk
        · exact hc
        · exact ih (a + 1) (by omega) hres k (by omega) hk2
  exact fun a hres k hk1 hk2 => main (endA - a) a rfl hres k hk1 hk2

/-- Decryption recovers `m` whenever `C - s·D = m·G` with `m` inside the
window `[0, endA)` and `endA ≤ ℓ`. -/
theorem decrypt_recovers (ct : TwistedElGamalCiphertext) (s : ZMod L) (m endA : ℕ)
    (hm : m < endA) (hend : endA ≤ L)
    (hmH : ct.C - ct.D * s = (m : ZMod L)) :
    TwistedElGamal.decryptWithPK ct s 0 endA = some m := by
  have hmL : m < L := by omega
  unfold TwistedElGamal.decryptWithPK
  simp only [if_pos rfl, hmH]
  rcases Nat.eq_zero_or_pos m with rfl | hmpos
  · simp
  · have hne : (m : ZMod L) ≠ 0 := by
      intro hz
      have : m = 0 := natCast_inj_of_lt hmL (by omega) (by simpa using hz)
      omega
    rw [if_neg hne]
    apply searchLoop_finds _ _ m (by simp [basePoint]) (by omega) 1 (by omega)
    intro k hk1 hk2 hkm
    rw [basePoint, mul_one] at hkm
    have : k = m := natCast_inj_of_lt (by omega) hmL hkm
    omega

/-! ### Claim C1 -/

/-- C1: For every amount m in [0, 2^32), every key pair whose decryption key
is the (invertible) scalar s with public key P = (1/s)·H, and every
randomness scalar r, `TwistedElGamal.decryptWithPK` applied to
`TwistedElGamal.encryptWithPK(m, P, r)` with decryption range [0, 2^32)
returns m. -/
theorem claimC1_encrypt_decrypt_roundtrip (h s r : ZMod L) (hs : IsUnit s)
    (m : ℕ) (hm : m < 2 ^ 32) :
    ∃ ct, TwistedElGamal.encryptWithPK h (m : ℤ) (publicKeyOfSecret h s) r =
        Except.ok ct ∧
      TwistedElGamal.decryptWithPK ct s 0 (2 ^ 32) = some m := by
  refine ⟨TwistedElGamal.encryptCore h (m : ℤ) (publicKeyOfSecret h s) r, ?_, ?_⟩
  · rw [TwistedElGamal.encryptWithPK, if_neg]
    rintro ⟨h1, -⟩
    exact absurd h1 (by omega)
  · apply decrypt_recovers _ _ _ _ hm (le_of_lt two_pow_32_lt_L)
    have hss : s * s⁻¹ = 1 := ZMod.mul_inv_of_unit s hs
    simp only [TwistedElGamal.encryptCore, publicKeyOfSecret, basePoint,
      Int.cast_natCast, mul_one]
    linear_combination (-(h * r)) * hss

/-- Witness for C1 at h = 5, s = 1, r = 7, m = 3. -/
theorem claimC1_witness :
    ∃ ct, TwistedElGamal.encryptWithPK 5 ((3 : ℕ) : ℤ) (publicKeyOfSecret 5 1) 7 =
        Except.ok ct ∧
      TwistedElGamal.decryptWithPK ct 1 0 (2 ^ 32) = some 3 :=
  claimC1_encrypt_decrypt_roundtrip 5 1 7 isUnit_one 3 (by norm_num)

/-! ### Claim C2 -/

/-- C2 counterexample: with ciphertext (C, D) = (2·G, 0) and secret key 1 we
have C - s·D = 2·G, and decryption over the range {start: 1, end: 2} returns
2, which lies outside the half-open interval [1, 2); the claim says the
search is confined to [lo, hi) and must throw OutOfRange here. -/
theorem claimC2_counterexample :
    TwistedElGamal.decryptWithPK ⟨2, 0⟩ 1 1 2 = some 2 ∧ ¬ (2 : ℕ) < 2 := by
  refine ⟨?_, by omega⟩
  unfold TwistedElGamal.decryptWithPK
  norm_num
  rw [TwistedElGamal.searchLoop]
  norm_num [basePoint]
  rw [if_neg (by decide : ¬ (1 : ZMod L) = 2)]
  rw [TwistedElGamal.searchLoop]
  norm_num [basePoint]

/-- C2 (amended): for ranges with lo ≤ hi and 1 ≤ hi,
`decryptWithPK((C,D), s, {start: lo, end: hi})` returns an amount m with
C − s·D = m·G found by linear search starting at lo over the CLOSED interval
[lo, hi] (the end bound is only tested after a failed comparison, so hi
itself is probed and can be returned); it short-circuits to 0 when lo = 0
and C − s·D is the identity; it throws OutOfRange exactly when no m in
[lo, hi] satisfies C − s·D = m·G; and it never returns a value outside
[lo, hi]. -/
theorem claimC2_amended (Cp Dp : Point) (s : ZMod L) (lo hi : ℕ)
    (hlohi : lo ≤ hi) (hhi : 1 ≤ hi) :
    (∀ m, TwistedElGamal.decryptWithPK ⟨Cp, Dp⟩ s lo hi = some m →
      (m : ZMod L) * basePoint = Cp - Dp * s ∧ lo ≤ m ∧ m ≤ hi ∧
      ∀ k, lo ≤ k → k < m → (k : ZMod L) * basePoint ≠ Cp - Dp * s) ∧
    (TwistedElGamal.decryptWithPK ⟨Cp, Dp⟩ s lo hi = none →
      ∀ k, lo ≤ k → k ≤ hi → (k : ZMod L) * basePoint ≠ Cp - Dp * s) ∧
    (lo = 0 → Cp - Dp * s = 0 →
      TwistedElGamal.decryptWithPK ⟨Cp, Dp⟩ s lo hi = some 0) := by
  unfold TwistedElGamal.decryptWithPK
  simp only
  rcases Nat.eq_zero_or_pos lo with rfl | hlo
  · simp only [if_pos rfl]
    by_cases hz : Cp - Dp * s = 0
    · rw [if_pos hz]
      refine ⟨?_, ?_, fun _ _ => rfl⟩
      · intro m hm
        obtain rfl : (0 : ℕ) = m := Option.some.inj hm
        exact ⟨by simp [hz], le_rfl, by omega, fun k hk1 hk2 => by omega⟩
      · intro hnone; exact absurd hnone (by simp)
    · rw [if_neg hz]
      refine ⟨?_, ?_, fun _ hz2 => absurd hz2 hz⟩
      · intro m hm
        obtain ⟨h1, h2, h3, h4⟩ := searchLoop_some _ hi 1 hhi m hm
        refine ⟨h1, by omega, h3, fun k hk1 hk2 => ?_⟩
        rcases Nat.eq_zero_or_pos k with rfl | hk
        · simpa using Ne.symm hz
        · exact h4 k (by omega) hk2
      · intro hnone k hk1 hk2
        rcases Nat.eq_zero_or_pos k with rfl | hk
        · simpa using Ne.symm hz
        · exact searchLoop_none _ hi 1 hnone k (by omega) hk2
  · rw [if_neg (by omega : ¬ lo = 0)]
    refine ⟨?_, ?_, fun hlo0 _ => by omega⟩
    · intro m hm
      exact searchLoop_some _ hi lo hlohi m hm
    · intro hnone
      exact searchLoop_none _ hi lo hnone

/-- Witness for the amended C2: the short-circuit conjunct at the identity
point with range {start: 0, end: 2}. -/
theorem claimC2_witness :
    TwistedElGamal.decryptWithPK ⟨0, 0⟩ 1 0 2 = some 0 :=
  (claimC2_amended 0 0 1 0 2 (by omega) (by omega)).2.2 rfl (by ring)

/-! ### Claim C4 -/

/-- C4: For all amounts m₁, m₂ with m₁ + m₂ < 2^32, any randomness scalars
r₁, r₂ and key pair (s, P = (1/s)·H), decrypting
`addCiphertext(encryptWithPK(m₁, P, r₁), encryptWithPK(m₂, P, r₂))` with s
over the range [0, 2^32) yields m₁ + m₂; componentwise, the sum ciphertext
is (C₁+C₂, D₁+D₂). -/
theorem claimC4_homomorphic_add (h s r₁ r₂ : ZMod L) (hs : IsUnit s)
    (m₁ m₂ : ℕ) (hm : m₁ + m₂ < 2 ^ 32) :
    ∃ ct₁ ct₂,
      TwistedElGamal.encryptWithPK h (m₁ : ℤ) (publicKeyOfSecret h s) r₁ =
        Except.ok ct₁ ∧
      TwistedElGamal.encryptWithPK h (m₂ : ℤ) (publicKeyOfSecret h s) r₂ =
        Except.ok ct₂ ∧
      ct₁.addCiphertext ct₂ = ⟨ct₁.C + ct₂.C, ct₁.D + ct₂.D⟩ ∧
      TwistedElGamal.decryptWithPK (ct₁.addCiphertext ct₂) s 0 (2 ^ 32) =
        some (m₁ + m₂) := by
  refine ⟨TwistedElGamal.encryptCore h (m₁ : ℤ) (publicKeyOfSecret h s) r₁,
    TwistedElGamal.encryptCore h (m₂ : ℤ) (publicKeyOfSecret h s) r₂,
    ?_, ?_, rfl, ?_⟩
  · rw [TwistedElGamal.encryptWithPK, if_neg]
    rintro ⟨h1, -⟩
    exact absurd h1 (by omega)
  · rw [TwistedElGamal.encryptWithPK, if_neg]
    rintro ⟨h1, -⟩
    exact absurd h1 (by omega)
  · apply decrypt_recovers _ _ _ _ hm (le_of_lt two_pow_32_lt_L)
    have hss : s * s⁻¹ = 1 := ZMod.mul_inv_of_unit s hs
    simp only [TwistedElGamal.encryptCore, TwistedElGamalCiphertext.addCiphertext,
      publicKeyOfSecret, basePoint, Int.cast_natCast, mul_one, Nat.cast_add]
    linear_combination (-(h * (r₁ + r₂))) * hss

/-- Witness for C4 at h = 5, s = 1, r₁ = 7, r₂ = 11, m₁ = 3, m₂ = 4. -/
theorem claimC4_witness :
    ∃ ct₁ ct₂,
      TwistedElGamal.encryptWithPK 5 ((3 : ℕ) : ℤ) (publicKeyOfSecret 5 1) 7 =
        Except.ok ct₁ ∧
      TwistedElGamal.encryptWithPK 5 ((4 : ℕ) : ℤ) (publicKeyOfSecret 5 1) 11 =
        Except.ok ct₂ ∧
      ct₁.addCiphertext ct₂ = ⟨ct₁.C + ct₂.C, ct₁.D + ct₂.D⟩ ∧
      TwistedElGamal.decryptWithPK (ct₁.addCiphertext ct₂) 1 0 (2 ^ 32) =
        some (3 + 4) :=
  claimC4_homomorphic_add 5 1 7 11 isUnit_one 3 4 (by norm_num)

/-! ### Claim C5 -/

/-- C5: the range guard of `encryptWithPK` is the conjunction
`amount < 0n && amount >= ed25519.CURVE.n`, which no amount satisfies, so
the function never raises its own range error; in particular at the failing
input amount = -1 (which is outside [0, ℓ)) it returns a ciphertext instead
of failing, contradicting the error message of the guard itself. -/
theorem claimC5_guard_dead :
    (∀ (h : Point) (amount : ℤ) (P r : ZMod L),
      TwistedElGamal.encryptWithPK h amount P r =
        Except.ok (TwistedElGamal.encryptCore h amount P r)) ∧
    TwistedElGamal.encryptWithPK 1 (-1) 1 1 =
      Except.ok (TwistedElGamal.encryptCore 1 (-1) 1 1) ∧
    ((-1 : ℤ) < 0) := by
  have main : ∀ (h : Point) (amount : ℤ) (P r : ZMod L),
      TwistedElGamal.encryptWithPK h amount P r =
        Except.ok (TwistedElGamal.encryptCore h amount P r) := by
    intro h amount P r
    rw [TwistedElGamal.encryptWithPK, if_neg]
    rintro ⟨h1, h2⟩
    have hL : (0 : ℤ) ≤ (L : ℤ) := Int.natCast_nonneg L
    omega
  exact ⟨main, main 1 (-1) 1 1, by omega⟩

/-! ### Withdraw sigma protocol (veiledOperationZKP/sigmaProofs.ts, part_003)

The Fiat-Shamir challenge is SHA-512 of the concatenated canonical encodings
of the absorbed inputs, reduced mod ℓ (`genFiatShamirChallenge`, lines
82-85).  The hash itself is outside the embedding, so it is an arbitrary
function parameter of the transcript; prover and verifier absorb values in
an identical order, and byte encodings of equal scalars and points are
equal, so a value-level transcript is faithful.  The fixed DST string is a
constant first component of every transcript and is omitted.  Scalar and
point fields travel as 32-byte little-endian strings through
`sigmaProofsSerializers.ts` (not under src/), whose fixed-width layout
round-trips; the proof is therefore modelled as a record of its scalar and
point values. -/

/-- Transcript absorbed by the withdraw Fiat-Shamir challenge, in source
order: amount, public key, balance C, balance D, base point, H, X1, X2. -/
structure WithdrawTranscript where
  amount : ℤ
  publicKey : Point
  balC : Point
  balD : Point
  base : Point
  hGen : Point
  X1 : Point
  X2 : Point

/-- The withdraw sigma proof: response scalars alpha1..alpha3 and commitment
points X1, X2. -/
structure VeiledWithdrawSigmaProofData where
  alpha1 : ZMod L
  alpha2 : ZMod L
  alpha3 : ZMod L
  X1 : Point
  X2 : Point
deriving DecidableEq

/-- `genSigmaProofVeiledWithdraw` (part_003 lines 95-135).  `x1 x2 x3` are
the random nonces drawn by `genModRandom()`; `hash` is the Fiat-Shamir
challenge function. -/
def genSigmaProofVeiledWithdraw (h : Point) (hash : WithdrawTranscript → ZMod L)
    (privateKey : ZMod L) (encryptedBalance : TwistedElGamalCiphertext)
    (amount changedBalance : ℤ) (x1 x2 x3 : ZMod L) :
    VeiledWithdrawSigmaProofData :=
  let X1 := x1 * basePoint + x2 * encryptedBalance.D
  let X2 := x3 * h
  let p := hash ⟨amount, publicKeyOfSecret h privateKey,
    encryptedBalance.C, encryptedBalance.D, basePoint, h, X1, X2⟩
  let invertSLE := privateKey⁻¹
  let pt := p * (changedBalance : ZMod L)
  let ps := p * privateKey
  let psInvert := p * invertSLE
  { alpha1 := x1 - pt
    alpha2 := x2 - ps
    alpha3 := x3 - psInvert
    X1 := X1
    X2 := X2 }

/-- `verifySigmaProofVeiledWithdraw` (part_003 lines 300-331): recompute the
challenge from public data and the transmitted X points, then check the two
verification equations. -/
def verifySigmaProofVeiledWithdraw (h : Point) (hash : WithdrawTranscript → ZMod L)
    (publicKey : Point) (encryptedBalance : TwistedElGamalCiphertext)
    (amount : ℤ) (proof : VeiledWithdrawSigmaProofData) : Bool :=
  let p := hash ⟨amount, publicKey, encryptedBalance.C, encryptedBalance.D,
    basePoint, h, proof.X1, proof.X2⟩
  let alpha1G := proof.alpha1 * basePoint
  let alpha2D := proof.alpha2 * encryptedBalance.D
  let alpha3H := proof.alpha3 * h
  let pP := p * publicKey
  let X1 := alpha1G + alpha2D + p * (encryptedBalance.C - (amount : ZMod L) * basePoint)
  let X2 := alpha3H + pP
  decide (X1 = proof.X1) && decide (X2 = proof.X2)

/-! ### Claim C3 -/

/-- C3: Withdraw proof completeness.  For every balance b, withdraw amount a,
key pair (s, P = (1/s)·H) with s invertible, randomness r and nonces
x1 x2 x3: if encryptedBalance encrypts b under P and changedBalance = b - a,
then `verifySigmaProofVeiledWithdraw` accepts every proof produced by
`genSigmaProofVeiledWithdraw`. -/
theorem claimC3_withdraw_completeness (h : Point)
    (hash : WithdrawTranscript → ZMod L) (s : ZMod L) (hs : IsUnit s)
    (b a : ℤ) (r x1 x2 x3 : ZMod L) :
    verifySigmaProofVeiledWithdraw h hash (publicKeyOfSecret h s)
      (TwistedElGamal.encryptCore h b (publicKeyOfSecret h s) r) a
      (genSigmaProofVeiledWithdraw h hash s
        (TwistedElGamal.encryptCore h b (publicKeyOfSecret h s) r) a (b - a)
        x1 x2 x3) = true := by
  have hss : s * s⁻¹ = 1 := ZMod.mul_inv_of_unit s hs
  simp only [verifySigmaProofVeiledWithdraw, genSigmaProofVeiledWithdraw,
    TwistedElGamal.encryptCore, publicKeyOfSecret, basePoint,
    Bool.and_eq_true, decide_eq_true_eq]
  constructor
  · push_cast
    linear_combination (-(hash ⟨a, s⁻¹ * h,
      (b : ZMod L) * 1 + r * h, s⁻¹ * h * r, 1, h,
      x1 * 1 + x2 * (s⁻¹ * h * r), x3 * h⟩ * h * r)) * hss
  · ring

/-- Witness for C3 at h = 2, constant-zero challenge, s = 1, b = 3, a = 1,
r = 0 and zero nonces. -/
theorem claimC3_witness :
    verifySigmaProofVeiledWithdraw 2 (fun _ => 0) (publicKeyOfSecret 2 1)
      (TwistedElGamal.encryptCore 2 3 (publicKeyOfSecret 2 1) 0) 1
      (genSigmaProofVeiledWithdraw 2 (fun _ => 0) 1
        (TwistedElGamal.encryptCore 2 3 (publicKeyOfSecret 2 1) 0) 1 (3 - 1)
        0 0 0) = true :=
  claimC3_withdraw_completeness 2 (fun _ => 0) 1 isUnit_one 3 1 0 0 0 0

/-! ### VeiledTransfer builder (veiled/veiledTransfer.ts, part_004) -/

/-- Modelled from the spec: `VEILED_BALANCE_CHUNK_SIZE` comes from
`veiled/consts.ts`, which is not under src/; a balance is 4 chunks. -/
def VEILED_BALANCE_CHUNK_COUNT : ℕ := 4

/-- Modelled from the spec: `CHUNK_BITS` comes from `veiled/consts.ts`,
which is not under src/; each chunk is 32 bits. -/
def CHUNK_BITS : ℕ := 32

/-- Modelled from the spec: `amountToChunks` lives in `veiled/helpers.ts`,
which is not under src/.  It splits an integer into 4 chunks of 32 bits so
that `v = Σᵢ cᵢ · 2^(32·i)`. -/
def amountToChunks (amount : ℤ) : List ℤ :=
  (List.range VEILED_BALANCE_CHUNK_COUNT).map fun i =>
    amount / 2 ^ (CHUNK_BITS * i) % 2 ^ CHUNK_BITS

/-- Modelled from the spec: `chunksToAmount` lives in `veiled/helpers.ts`,
which is not under src/.  It reconstructs `Σᵢ cᵢ · 2^(32·i)`. -/
def chunksToAmount (chunks : List ℤ) : ℤ :=
  (chunks.enum.map fun ic => ic.2 * 2 ^ (CHUNK_BITS * ic.1)).sum

/-- The mutable state of a `VeiledTransfer` builder (part_004 lines 29-58).
The private key is carried as its scalar; points carry their discrete logs.
`balanceAfterTransfer` and `encryptedActualBalanceAfterTransfer` are
optional fields that `init` assigns. -/
structure VeiledTransferState where
  isInitialized : Bool
  privateKey : ZMod L
  recipientPublicKey : Point
  auditorPublicKeys : List Point
  auditorsDList : List (List Point)
  encryptedActualBalance : List TwistedElGamalCiphertext
  chunkedAmountToTransfer : List ℤ
  chunkedBalanceAfterTransfer : List ℤ
  amountToTransfer : ℤ
  balanceAfterTransfer : Option ℤ
  encryptedActualBalanceAfterTransfer : Option (List TwistedElGamalCiphertext)
  encryptedAmountByRecipient : List TwistedElGamalCiphertext
  randomness : List (ZMod L)
deriving DecidableEq

namespace VeiledTransfer

/-- The error message of the inverted initialization guard; the source
(part_004 lines 168, 193, 399) uses the VeiledWithdraw wording verbatim. -/
def notInitializedError : String := "VeiledWithdraw is not initialized"

/-- The `VeiledTransfer` constructor (part_004 lines 60-86), modelled as the
sequence of field initializations the source performs.  Class fields without
initializers hold `undefined` until their assignment line runs; the fields
`randomness` (assigned only at line 85) and `balanceAfterTransfer` (never
assigned in the constructor) are modelled as `Option` locals that are still
`none` when lines 75-83 read them, and a read that dereferences `undefined`
is an `Except.error` carrying the TypeError.  `freshRandomness` stands for
the `ed25519GenListOfRandom()` drawn when no randomness is supplied. -/
def constructor (h : Point) (privateKey : ZMod L)
    (encryptedActualBalance : List TwistedElGamalCiphertext)
    (amountToTransfer : ℤ) (recipientPublicKey : Point)
    (auditorPublicKeys : List Point)
    (suppliedRandomness : Option (List (ZMod L)))
    (freshRandomness : List (ZMod L)) : Except String VeiledTransferState := do
  let randomnessField : Option (List (ZMod L)) := none
  let balanceAfterTransferField : Option ℤ := none
  -- lines 75-78: auditorsDList maps over this.randomness, still undefined
  let auditorsDList ← match auditorPublicKeys, randomnessField with
    | [], _ => Except.ok ([] : List (List Point))
    | _ :: _, none =>
      Except.error "TypeError: Cannot read properties of undefined (reading map)"
    | pks, some rs => Except.ok (pks.map fun pk => rs.map fun r => r * pk)
  -- line 79
  let chunkedAmountToTransfer := amountToChunks amountToTransfer
  -- line 80: amountToChunks(this.balanceAfterTransfer!), field undefined
  let chunkedBalanceAfterTransfer ← match balanceAfterTransferField with
    | none => Except.error "TypeError: Cannot convert undefined to a BigInt"
    | some b => Except.ok (amountToChunks b)
  -- lines 81-83: again reads this.randomness[i], still undefined
  let encryptedAmountByRecipient ← match chunkedAmountToTransfer, randomnessField with
    | [], _ => Except.ok ([] : List TwistedElGamalCiphertext)
    | _ :: _, none =>
      Except.error "TypeError: Cannot read properties of undefined (reading 0)"
    | chunks, some rs => Except.ok ((chunks.zip rs).map fun cr =>
        TwistedElGamal.encryptCore h cr.1 recipientPublicKey cr.2)
  -- line 85: only now would this.randomness be assigned
  let randomness := suppliedRandomness.getD freshRandomness
  Except.ok
    { isInitialized := false
      privateKey := privateKey
      recipientPublicKey := recipientPublicKey
      auditorPublicKeys := auditorPublicKeys
      auditorsDList := auditorsDList
      encryptedActualBalance := encryptedActualBalance
      chunkedAmountToTransfer := chunkedAmountToTransfer
      chunkedBalanceAfterTransfer := chunkedBalanceAfterTransfer
      amountToTransfer := amountToTransfer
      balanceAfterTransfer := none
      encryptedActualBalanceAfterTransfer := none
      encryptedAmountByRecipient := encryptedAmountByRecipient
      randomness := randomness }

/-- `VeiledTransfer.init` (part_004 lines 167-190).  The guard is transcribed
exactly as in the source: `if (!this.isInitialized) throw new TypeError(...)`,
i.e. it throws precisely when the builder is NOT yet initialized, and only
after the body completes is `isInitialized` set to true. -/
def init (h : Point) (st : VeiledTransferState) : Except String VeiledTransferState :=
  if !st.isInitialized then Except.error notInitializedError
  else do
    -- decrypt each chunk over the hardcoded FIXME window {start: 0, end: 1000}
    let decryptedBalanceChunks ← st.encryptedActualBalance.mapM fun ct =>
      match TwistedElGamal.decryptWithPK ct st.privateKey 0 1000 with
      | some a => Except.ok (a : ℤ)
      | none => Except.error "Error while decrypting amount in specified range"
    let decryptedBalance := chunksToAmount decryptedBalanceChunks
    let balanceAfterTransfer := decryptedBalance - st.amountToTransfer
    let chunkedBalanceAfterWithdraw := amountToChunks balanceAfterTransfer
    let encryptedActualBalanceAfterTransfer :=
      (chunkedBalanceAfterWithdraw.zip st.randomness).map fun cr =>
        TwistedElGamal.encryptCore h cr.1 (publicKeyOfSecret h st.privateKey) cr.2
    Except.ok { st with
      balanceAfterTransfer := some balanceAfterTransfer
      encryptedActualBalanceAfterTransfer := some encryptedActualBalanceAfterTransfer
      isInitialized := true }

/-- The per-call sigma nonces drawn by `ed25519GenRandom()` and
`ed25519GenListOfRandom()` at part_004 lines 203-208; they are sampled fresh
on every `genSigmaProof` call and are not part of the builder state. -/
structure TransferNonces where
  x1 : ZMod L
  x2 : ZMod L
  x5 : ZMod L
  x3List : List (ZMod L)
  x4List : List (ZMod L)
  x6List : List (ZMod L)
deriving DecidableEq

/-- The transfer sigma proof at scalar/point level (part_004 lines 13-27);
`X7List` is the flattened per-auditor list, as returned by the source. -/
structure VeiledTransferSigmaProofData where
  alpha1 : ZMod L
  alpha2 : ZMod L
  alpha3List : List (ZMod L)
  alpha4List : List (ZMod L)
  alpha5 : ZMod L
  alpha6List : List (ZMod L)
  X1 : Point
  X2List : List Point
  X3List : List Point
  X4List : List Point
  X5 : Point
  X6List : List Point
  X7List : List Point
deriving DecidableEq

/-- The positionally weighted sum `Σᵢ Pᵢ · 2^(i·32)` used for `DBal`,
`DNewBal` and the aggregate sums of the verifier (part_004 lines 217-224). -/
def weightedSum (points : List Point) : Point :=
  (points.enum.map fun ipt => ipt.2 * ((2 ^ (CHUNK_BITS * ipt.1) : ℕ) : ZMod L)).sum

/-- `VeiledTransfer.genSigmaProof` (part_004 lines 192-284).  `hash` is the
Fiat-Shamir challenge (`genFiatShamirChallenge`, SHA-512 reduced mod ℓ)
applied to the absorbed point list (the constant DST prefix is omitted);
`decodeSkBytesAsPoint` models line 210, where the source decodes the PRIVATE
key bytes as a Ristretto point via `RistrettoPoint.fromHex`; `nonces` are the
fresh per-call randoms of lines 203-208.  Guards are transcribed in source
order; note that JS `!this.balanceAfterTransfer` is also true for `0n`. -/
def genSigmaProof (h : Point) (hash : List Point → ZMod L)
    (decodeSkBytesAsPoint : ZMod L → Point) (st : VeiledTransferState)
    (nonces : TransferNonces) : Except String VeiledTransferSigmaProofData :=
  if !st.isInitialized then Except.error notInitializedError
  else if st.randomness.length ≠ VEILED_BALANCE_CHUNK_COUNT then
    Except.error "Invalid length list of randomness"
  else if st.amountToTransfer > 2 ^ (2 * CHUNK_BITS) - 1 then
    Except.error "Amount must be less than 2n**64"
  else
    match st.balanceAfterTransfer with
    | none => Except.error "Balance after transfer is not defined"
    | some balanceAfterTransfer =>
      if balanceAfterTransfer = 0 then
        Except.error "Balance after transfer is not defined"
      else
        let senderPKRistretto := decodeSkBytesAsPoint st.privateKey
        let recipientPKRistretto := st.recipientPublicKey
        let senderPublicKey := publicKeyOfSecret h st.privateKey
        let newEncryptedBalance :=
          (st.chunkedBalanceAfterTransfer.zip st.randomness).map fun cr =>
            TwistedElGamal.encryptCore h cr.1 senderPublicKey cr.2
        let DBal := weightedSum (st.encryptedActualBalance.map (·.D))
        let DNewBal := weightedSum (newEncryptedBalance.map (·.D))
        let X1 := nonces.x1 * basePoint + nonces.x2 * DBal - nonces.x2 * DNewBal
        let X2List := nonces.x3List.map fun x3 => x3 * senderPKRistretto
        let X3List := nonces.x3List.map fun x3 => x3 * recipientPKRistretto
        let X4List := (nonces.x4List.zip nonces.x3List).map fun x43 =>
          x43.1 * basePoint + x43.2 * h
        let X5 := nonces.x5 * h
        let X6List := (nonces.x6List.zip nonces.x3List).map fun x63 =>
          x63.1 * basePoint + x63.2 * h
        let X7List := st.auditorPublicKeys.map fun pk =>
          nonces.x3List.map fun x3 => x3 * pk
        let transcript : List Point :=
          [basePoint, h, senderPublicKey, st.recipientPublicKey] ++
          (st.encryptedActualBalance.map fun ct => [ct.C, ct.D]).flatten ++
          (newEncryptedBalance.map fun ct => [ct.C, ct.D]).flatten ++
          (st.encryptedAmountByRecipient.map fun ct => [ct.C, ct.D]).flatten ++
          st.auditorsDList.flatten ++
          [X1] ++ X2List ++ X3List ++ X4List ++ [X5] ++ X6List ++ X7List.flatten
        let p := hash transcript
        let invertSLE := st.privateKey⁻¹
        Except.ok
          { alpha1 := nonces.x1 - p * (balanceAfterTransfer : ZMod L)
            alpha2 := nonces.x2 - p * st.privateKey
            alpha3List := (nonces.x3List.zip st.randomness).map fun xr =>
              xr.1 - p * xr.2
            alpha4List := (nonces.x4List.zip st.chunkedAmountToTransfer).map fun xc =>
              xc.1 - p * (xc.2 : ZMod L)
            alpha5 := nonces.x5 - p * invertSLE
            alpha6List := (nonces.x6List.zip st.chunkedBalanceAfterTransfer).map fun xc =>
              xc.1 - p * (xc.2 : ZMod L)
            X1 := X1
            X2List := X2List
            X3List := X3List
            X4List := X4List
            X5 := X5
            X6List := X6List
            X7List := X7List.flatten }

/-- One invocation of the pluggable Bulletproofs backend
(`generateRangeZKP`); since the backend is external, `genRangeProof` is
modelled as producing the exact inputs handed to it. -/
structure RangeProofInputData where
  v : ℤ
  r : ZMod L
  valBase : Point
  randBase : Point
deriving DecidableEq

/-- `VeiledTransfer.genRangeProof` (part_004 lines 398-437): after the same
inverted initialization guard, it calls the external range-proof backend
once per transfer-amount chunk (bases `(G, H)`, blinder `randomness[i]`) and
once per new-balance chunk (bases `(G, Dᵢ)`, blinder the private key
bytes). -/
def genRangeProof (h : Point) (st : VeiledTransferState) :
    Except String (List RangeProofInputData × List RangeProofInputData) :=
  if !st.isInitialized then Except.error notInitializedError
  else
    match st.encryptedActualBalanceAfterTransfer with
    | none => Except.error "this.encryptedActualBalanceAfterTransfer is not defined"
    | some encryptedAfter =>
      match st.balanceAfterTransfer with
      | none => Except.error "Balance after transfer is not defined"
      | some b =>
        if b = 0 then Except.error "Balance after transfer is not defined"
        else
          let rangeProofAmount :=
            ((amountToChunks st.amountToTransfer).zip st.randomness).map fun cr =>
              ⟨cr.1, cr.2, basePoint, h⟩
          let rangeProofNewBalance :=
            ((amountToChunks b).zip encryptedAfter).map fun cct =>
              (⟨cct.1, st.privateKey, basePoint, cct.2.D⟩ : RangeProofInputData)
          Except.ok (rangeProofAmount, rangeProofNewBalance)

end VeiledTransfer

/-! ### Claim C6 -/

/-- C6: In the VeiledTransfer constructor, the `randomness` field is read (to
construct `auditorsDList` and `encryptedAmountByRecipient`) before it is
assigned; with a non-empty auditor list construction fails by dereferencing
the not-yet-assigned randomness list, and no invocation ever produces a
builder, so the `encryptedAmountByRecipient` ciphertexts are never built
from the randomness the builder later stores. -/
theorem claimC6_constructor_reads_randomness_early (h : Point)
    (privateKey : ZMod L)
    (encryptedActualBalance : List TwistedElGamalCiphertext)
    (amountToTransfer : ℤ) (recipientPublicKey : Point)
    (auditorPublicKeys : List Point)
    (suppliedRandomness : Option (List (ZMod L)))
    (freshRandomness : List (ZMod L)) :
    (auditorPublicKeys ≠ [] →
      VeiledTransfer.constructor h privateKey encryptedActualBalance
        amountToTransfer recipientPublicKey auditorPublicKeys
        suppliedRandomness freshRandomness =
        Except.error "TypeError: Cannot read properties of undefined (reading map)") ∧
    ∀ st, VeiledTransfer.constructor h privateKey encryptedActualBalance
        amountToTransfer recipientPublicKey auditorPublicKeys
        suppliedRandomness freshRandomness ≠ Except.ok st := by
  cases auditorPublicKeys with
  | nil =>
    have hred : VeiledTransfer.constructor h privateKey encryptedActualBalance
        amountToTransfer recipientPublicKey [] suppliedRandomness
        freshRandomness =
        Except.error "TypeError: Cannot convert undefined to a BigInt" := rfl
    exact ⟨fun hne => absurd rfl hne,
      fun st hcontra => by rw [hred] at hcontra; cases hcontra⟩
  | cons pk pks =>
    have hred : VeiledTransfer.constructor h privateKey encryptedActualBalance
        amountToTransfer recipientPublicKey (pk :: pks) suppliedRandomness
        freshRandomness =
        Except.error "TypeError: Cannot read properties of undefined (reading map)" := rfl
    exact ⟨fun _ => hred,
      fun st hcontra => by rw [hred] at hcontra; cases hcontra⟩

/-- Witness for C6 with one auditor public key. -/
theorem claimC6_witness :
    VeiledTransfer.constructor 1 0 [] 0 0 [1] none [] =
      Except.error "TypeError: Cannot read properties of undefined (reading map)" :=
  (claimC6_constructor_reads_randomness_early 1 0 [] 0 0 [1] none []).1
    (by simp)

/-! ### Claim C7 -/

/-- C7: every state whose `isInitialized` flag is false (as the class field
initializer sets it) makes `init` throw its not-initialized TypeError before
performing any work, because the guard requires `isInitialized` to already
be true; `init` can only succeed on a state that is already initialized, so
the flag can never become true through `init`; and `genSigmaProof` and
`genRangeProof` on such a state also throw the not-initialized error. -/
theorem claimC7_never_initialized (h : Point) (st : VeiledTransferState)
    (hst : st.isInitialized = false) :
    VeiledTransfer.init h st = Except.error VeiledTransfer.notInitializedError ∧
    (∀ (hash : List Point → ZMod L) (decodeSk : ZMod L → Point)
      (nonces : VeiledTransfer.TransferNonces),
      VeiledTransfer.genSigmaProof h hash decodeSk st nonces =
        Except.error VeiledTransfer.notInitializedError) ∧
    VeiledTransfer.genRangeProof h st =
      Except.error VeiledTransfer.notInitializedError ∧
    ∀ st₁ st₂, VeiledTransfer.init h st₁ = Except.ok st₂ →
      st₁.isInitialized = true := by
  refine ⟨?_, ?_, ?_, ?_⟩
  · rw [VeiledTransfer.init, hst]; rfl
  · intro hash decodeSk nonces
    rw [VeiledTransfer.genSigmaProof, hst]; rfl
  · rw [VeiledTransfer.genRangeProof, hst]; rfl
  · intro st₁ st₂ hok
    by_cases hinit : st₁.isInitialized = true
    · exact hinit
    · exfalso
      rw [Bool.not_eq_true] at hinit
      rw [VeiledTransfer.init] at hok
      rw [hinit] at hok
      simp at hok

/-- Witness for C7 at a concrete freshly-constructed state. -/
theorem claimC7_witness :
    VeiledTransfer.init 1 ⟨false, 0, 0, [], [], [], [], [], 0, none, none, [], []⟩ =
      Except.error VeiledTransfer.notInitializedError :=
  (claimC7_never_initialized 1
    ⟨false, 0, 0, [], [], [], [], [], 0, none, none, [], []⟩ rfl).1

/-! ### Claim C8 -/

/-- C8: once the initialization and randomness-length guards pass,
`genSigmaProof` throws its amount error exactly for transfer amounts ≥ 2^64
(the amount must fit in the lower two 32-bit chunks), and never raises this
error for any amount below 2^64. -/
theorem claimC8_amount_bound (h : Point) (hash : List Point → ZMod L)
    (decodeSk : ZMod L → Point) (st : VeiledTransferState)
    (nonces : VeiledTransfer.TransferNonces)
    (hinit : st.isInitialized = true)
    (hrand : st.randomness.length = VEILED_BALANCE_CHUNK_COUNT) :
    (VeiledTransfer.genSigmaProof h hash decodeSk st nonces =
      Except.error "Amount must be less than 2n**64") ↔
    2 ^ 64 ≤ st.amountToTransfer := by
  rw [VeiledTransfer.genSigmaProof, hinit]
  simp only [Bool.not_true, Bool.false_eq_true, if_false, hrand, ne_eq,
    not_true_eq_false]
  by_cases hamt : st.amountToTransfer > 2 ^ (2 * CHUNK_BITS) - 1
  · rw [if_pos hamt]
    refine ⟨fun _ => ?_, fun _ => rfl⟩
    revert hamt
    norm_num [CHUNK_BITS]
    omega
  · rw [if_neg hamt]
    have hrhs : ¬ 2 ^ 64 ≤ st.amountToTransfer := by
      revert hamt
      norm_num [CHUNK_BITS]
      omega
    refine iff_of_false ?_ hrhs
    intro hcontra
    split at hcontra
    · exact absurd (Except.error.inj hcontra) (by decide)
    · split at hcontra
      · exact absurd (Except.error.inj hcontra) (by decide)
      · cases hcontra

/-- Witness for C8: a guard-passing state carrying amount 2^64 makes
`genSigmaProof` throw the amount error. -/
theorem claimC8_witness :
    VeiledTransfer.genSigmaProof 1 (fun _ => 0) id
      ⟨true, 0, 0, [], [], [], [], [], 2 ^ 64, none, none, [], [0, 0, 0, 0]⟩
      ⟨0, 0, 0, [], [], []⟩ =
      Except.error "Amount must be less than 2n**64" :=
  (claimC8_amount_bound 1 (fun _ => 0) id
    ⟨true, 0, 0, [], [], [], [], [], 2 ^ 64, none, none, [], [0, 0, 0, 0]⟩
    ⟨0, 0, 0, [], [], []⟩ rfl rfl).mpr (by norm_num)

/-! ### Claim C10 -/

/-- Guard-passing runs of `genSigmaProof` succeed and commit to
`X5 = x5 · H`, where `x5` is one of the nonces sampled fresh on each call. -/
theorem genSigmaProof_ok_X5 (h : Point) (hash : List Point → ZMod L)
    (decodeSk : ZMod L → Point) (st : VeiledTransferState)
    (nonces : VeiledTransfer.TransferNonces)
    (hinit : st.isInitialized = true)
    (hrand : st.randomness.length = VEILED_BALANCE_CHUNK_COUNT)
    (hamt : ¬ st.amountToTransfer > 2 ^ (2 * CHUNK_BITS) - 1)
    (b : ℤ) (hb : st.balanceAfterTransfer = some b) (hb0 : ¬ b = 0) :
    ∃ pf, VeiledTransfer.genSigmaProof h hash decodeSk st nonces =
      Except.ok pf ∧ pf.X5 = nonces.x5 * h := by
  rw [VeiledTransfer.genSigmaProof, hinit]
  simp only [Bool.not_true, Bool.false_eq_true, if_false, hrand, ne_eq,
    not_true_eq_false, if_neg hamt, hb, if_neg hb0]
  exact ⟨_, rfl, rfl⟩

/-- A concrete guard-passing builder state used to exercise C10. -/
def c10State : VeiledTransferState :=
  { isInitialized := true
    privateKey := 1
    recipientPublicKey := 0
    auditorPublicKeys := []
    auditorsDList := []
    encryptedActualBalance := []
    chunkedAmountToTransfer := []
    chunkedBalanceAfterTransfer := []
    amountToTransfer := 0
    balanceAfterTransfer := some 1
    encryptedActualBalanceAfterTransfer := none
    encryptedAmountByRecipient := []
    randomness := [0, 0, 0, 0] }

/-- C10 counterexample: two `genSigmaProof` runs on the SAME builder state
(identical stored randomness) but with different freshly sampled sigma
nonces (x5 = 0 versus x5 = 1, drawn by `ed25519GenRandom()` inside the
call) return different proofs, so `genSigmaProof` is not a deterministic
function of the builder state and repeated invocations are not
byte-identical. -/
theorem claimC10_counterexample :
    VeiledTransfer.genSigmaProof 1 (fun _ => 0) id c10State ⟨0, 0, 0, [], [], []⟩ ≠
    VeiledTransfer.genSigmaProof 1 (fun _ => 0) id c10State ⟨0, 0, 1, [], [], []⟩ := by
  obtain ⟨pf₁, h₁, hX₁⟩ := genSigmaProof_ok_X5 1 (fun _ => 0) id c10State
    ⟨0, 0, 0, [], [], []⟩ rfl rfl (by norm_num [c10State, CHUNK_BITS]) 1 rfl
    one_ne_zero
  obtain ⟨pf₂, h₂, hX₂⟩ := genSigmaProof_ok_X5 1 (fun _ => 0) id c10State
    ⟨0, 0, 1, [], [], []⟩ rfl rfl (by norm_num [c10State, CHUNK_BITS]) 1 rfl
    one_ne_zero
  intro hcontra
  rw [h₁, h₂, Except.ok.injEq] at hcontra
  have hX : pf₁.X5 = pf₂.X5 := congrArg _ hcontra
  rw [hX₁, hX₂] at hX
  simp only [zero_mul, one_mul] at hX
  exact zero_ne_one hX

/-- C10 (amended): `genSigmaProof` is a deterministic function of the
builder state TOGETHER WITH the six per-call sigma nonces: two runs with the
same state and the same sampled nonces return equal proofs.  (The nonces are
sampled fresh inside each call, so the state alone does not determine the
proof.) -/
theorem claimC10_amended (h : Point) (hash : List Point → ZMod L)
    (decodeSk : ZMod L → Point) (st : VeiledTransferState)
    (n₁ n₂ : VeiledTransfer.TransferNonces) (hn : n₁ = n₂) :
    VeiledTransfer.genSigmaProof h hash decodeSk st n₁ =
    VeiledTransfer.genSigmaProof h hash decodeSk st n₂ := by rw [hn]

/-- Witness for the amended C10 at a concrete state and nonce vector. -/
theorem claimC10_witness :
    VeiledTransfer.genSigmaProof 1 (fun _ => 0) id c10State ⟨0, 0, 0, [], [], []⟩ =
    VeiledTransfer.genSigmaProof 1 (fun _ => 0) id c10State ⟨0, 0, 0, [], [], []⟩ :=
  claimC10_amended 1 (fun _ => 0) id c10State ⟨0, 0, 0, [], [], []⟩
    ⟨0, 0, 0, [], [], []⟩ rfl

/-! ### Sigma-proof wire format (part_004 lines 90-165) -/

/-- Byte strings are lists of byte values. -/
abbrev Bytes := List ℕ

/-- Modelled from the spec: `PROOF_CHUNK_SIZE` comes from `veiled/consts.ts`
(not under src/); every scalar or point field on the wire is 32 bytes. -/
def PROOF_CHUNK_SIZE : ℕ := 32

/-- Modelled from the spec: `SIGMA_PROOF_TRANSFER_SIZE` comes from
`veiled/consts.ts` (not under src/); the base transfer proof is the 33
fields α₁ α₂ α₃[0..3] α₄[0..3] α₅ α₆[0..3] X₁ X₂[0..3] X₃[0..3] X₄[0..3]
X₅ X₆[0..3] of 32 bytes each. -/
def SIGMA_PROOF_TRANSFER_SIZE : ℕ := 33 * 32

/-- The transfer sigma proof at the byte level (part_004 lines 13-27); the
optional `X7List` tail is the empty list when absent (`?? []` in the
serializer). -/
structure VeiledTransferSigmaProofBytes where
  alpha1 : Bytes
  alpha2 : Bytes
  alpha3List : List Bytes
  alpha4List : List Bytes
  alpha5 : Bytes
  alpha6List : List Bytes
  X1 : Bytes
  X2List : List Bytes
  X3List : List Bytes
  X4List : List Bytes
  X5 : Bytes
  X6List : List Bytes
  X7List : List Bytes
deriving DecidableEq

/-- `VeiledTransfer.serializeSigmaProof` (part_004 lines 90-106):
concatenation in the declared field order with the auditor tail last. -/
def VeiledTransfer.serializeSigmaProof (pf : VeiledTransferSigmaProofBytes) : Bytes :=
  pf.alpha1 ++ pf.alpha2 ++ pf.alpha3List.flatten ++ pf.alpha4List.flatten ++
  pf.alpha5 ++ pf.alpha6List.flatten ++ pf.X1 ++ pf.X2List.flatten ++
  pf.X3List.flatten ++ pf.X4List.flatten ++ pf.X5 ++ pf.X6List.flatten ++
  pf.X7List.flatten

/-- The 32-byte-stride slicing loops of the deserializer (part_004 lines
124-126 and 132-134). -/
def chunkify (bytes : Bytes) : List Bytes :=
  if hb : bytes = [] then []
  else bytes.take PROOF_CHUNK_SIZE :: chunkify (bytes.drop PROOF_CHUNK_SIZE)
termination_by bytes.length
decreasing_by
  simp only [List.length_drop, PROOF_CHUNK_SIZE]
  have := List.length_pos.mpr hb
  omega

/-- `VeiledTransfer.deserializeSigmaProof` (part_004 lines 108-165): check
the length, split the base proof into 33 chunks indexed exactly as in the
source, and parse any tail beyond the base size as the auditor X₇ list in
32-byte strides. -/
def VeiledTransfer.deserializeSigmaProof (sigmaProof : Bytes) :
    Except String VeiledTransferSigmaProofBytes :=
  if sigmaProof.length % PROOF_CHUNK_SIZE ≠ 0 then
    Except.error "Invalid sigma proof length: the length must be a multiple of 32"
  else if sigmaProof.length < SIGMA_PROOF_TRANSFER_SIZE then
    Except.error "Invalid sigma proof length of veiled transfer"
  else
    let baseProof := sigmaProof.take SIGMA_PROOF_TRANSFER_SIZE
    let baseProofArray := chunkify baseProof
    let X7List := chunkify (sigmaProof.drop SIGMA_PROOF_TRANSFER_SIZE)
    Except.ok
      { alpha1 := baseProofArray.getD 0 []
        alpha2 := baseProofArray.getD 1 []
        alpha3List := (baseProofArray.drop 2).take 4
        alpha4List := (baseProofArray.drop 6).take 4
        alpha5 := baseProofArray.getD 10 []
        alpha6List := (baseProofArray.drop 11).take 4
        X1 := baseProofArray.getD 15 []
        X2List := (baseProofArray.drop 16).take 4
        X3List := (baseProofArray.drop 20).take 4
        X4List := (baseProofArray.drop 24).take 4
        X5 := baseProofArray.getD 28 []
        X6List := baseProofArray.drop 29
        X7List := X7List }

theorem chunkify_flatten (blocks : List Bytes)
    (hb : ∀ b ∈ blocks, b.length = PROOF_CHUNK_SIZE) :
    chunkify blocks.flatten = blocks := by
  induction blocks with
  | nil => rw [chunkify]; simp
  | cons b bs ih =>
    have hlen : b.length = PROOF_CHUNK_SIZE := hb b (List.mem_cons_self b bs)
    have hbne : b ≠ [] := by
      intro he
      rw [he] at hlen
      simp [PROOF_CHUNK_SIZE] at hlen
    rw [List.flatten_cons, chunkify,
      dif_neg (fun hcon => hbne (List.append_eq_nil.mp hcon).1),
      List.take_left' hlen, List.drop_left' hlen,
      ih (fun x hx => hb x (List.mem_cons_of_mem b hx))]

theorem flatten_length_const (blocks : List Bytes) (c : ℕ)
    (hb : ∀ b ∈ blocks, b.length = c) :
    blocks.flatten.length = c * blocks.length := by
  induction blocks with
  | nil => simp
  | cons b bs ih =>
    rw [List.flatten_cons, List.length_append,
      hb b (List.mem_cons_self b bs),
      ih (fun x hx => hb x (List.mem_cons_of_mem b hx)),
      List.length_cons]
    ring

theorem list_length_four {α : Type} : ∀ (l : List α), l.length = 4 →
    ∃ a b c d, l = [a, b, c, d] := by
  intro l hl
  match l with
  | [a, b, c, d] => exact ⟨a, b, c, d, rfl⟩
  | [] => simp at hl
  | [a] => simp at hl
  | [a, b] => simp at hl
  | [a, b, c] => simp at hl
  | a :: b :: c :: d :: e :: t => simp [List.length_cons] at hl

/-! ### Claim C9 -/

set_option maxHeartbeats 1600000 in
/-- C9: Transfer sigma-proof serialization round trip: for every transfer
sigma proof whose scalar and point fields are 32-byte strings, whose
per-chunk lists each have 4 elements of 32 bytes, and whose auditor tail
X7List has 4·k elements of 32 bytes, deserializeSigmaProof applied to
serializeSigmaProof reproduces exactly the same fields, with the wire
layout α₁ α₂ α₃[0..3] α₄[0..3] α₅ α₆[0..3] X₁ X₂[0..3] X₃[0..3] X₄[0..3]
X₅ X₆[0..3] followed by the auditor tail in 32-byte strides. -/
theorem claimC9_sigma_proof_roundtrip (pf : VeiledTransferSigmaProofBytes) (k : ℕ)
    (ha1 : pf.alpha1.length = 32) (ha2 : pf.alpha2.length = 32)
    (ha5 : pf.alpha5.length = 32) (hX1 : pf.X1.length = 32)
    (hX5 : pf.X5.length = 32)
    (ha3 : pf.alpha3List.length = 4) (ha3e : ∀ b ∈ pf.alpha3List, b.length = 32)
    (ha4 : pf.alpha4List.length = 4) (ha4e : ∀ b ∈ pf.alpha4List, b.length = 32)
    (ha6 : pf.alpha6List.length = 4) (ha6e : ∀ b ∈ pf.alpha6List, b.length = 32)
    (hX2 : pf.X2List.length = 4) (hX2e : ∀ b ∈ pf.X2List, b.length = 32)
    (hX3 : pf.X3List.length = 4) (hX3e : ∀ b ∈ pf.X3List, b.length = 32)
    (hX4 : pf.X4List.length = 4) (hX4e : ∀ b ∈ pf.X4List, b.length = 32)
    (hX6 : pf.X6List.length = 4) (hX6e : ∀ b ∈ pf.X6List, b.length = 32)
    (hX7 : pf.X7List.length = 4 * k) (hX7e : ∀ b ∈ pf.X7List, b.length = 32) :
    VeiledTransfer.deserializeSigmaProof (VeiledTransfer.serializeSigmaProof pf) =
      Except.ok pf := by
  obtain ⟨a30, a31, a32, a33, h3eq⟩ := list_length_four _ ha3
  obtain ⟨a40, a41, a42, a43, h4eq⟩ := list_length_four _ ha4
  obtain ⟨a60, a61, a62, a63, h6eq⟩ := list_length_four _ ha6
  obtain ⟨x20, x21, x22, x23, hX2eq⟩ := list_length_four _ hX2
  obtain ⟨x30, x31, x32, x33, hX3eq⟩ := list_length_four _ hX3
  obtain ⟨x40, x41, x42, x43, hX4eq⟩ := list_length_four _ hX4
  obtain ⟨x60, x61, x62, x63, hX6eq⟩ := list_length_four _ hX6
  set B : List Bytes := [pf.alpha1, pf.alpha2, a30, a31, a32, a33,
    a40, a41, a42, a43, pf.alpha5, a60, a61, a62, a63, pf.X1,
    x20, x21, x22, x23, x30, x31, x32, x33, x40, x41, x42, x43,
    pf.X5, x60, x61, x62, x63] with hBdef
  simp only [h3eq, List.mem_cons, List.not_mem_nil, or_false,
    forall_eq_or_imp, forall_eq] at ha3e
  simp only [h4eq, List.mem_cons, List.not_mem_nil, or_false,
    forall_eq_or_imp, forall_eq] at ha4e
  simp only [h6eq, List.mem_cons, List.not_mem_nil, or_false,
    forall_eq_or_imp, forall_eq] at ha6e
  simp only [hX2eq, List.mem_cons, List.not_mem_nil, or_false,
    forall_eq_or_imp, forall_eq] at hX2e
  simp only [hX3eq, List.mem_cons, List.not_mem_nil, or_false,
    forall_eq_or_imp, forall_eq] at hX3e
  simp only [hX4eq, List.mem_cons, List.not_mem_nil, or_false,
    forall_eq_or_imp, forall_eq] at hX4e
  simp only [hX6eq, List.mem_cons, List.not_mem_nil, or_false,
    forall_eq_or_imp, forall_eq] at hX6e
  obtain ⟨l30, l31, l32, l33⟩ := ha3e
  obtain ⟨l40, l41, l42, l43⟩ := ha4e
  obtain ⟨l60, l61, l62, l63⟩ := ha6e
  obtain ⟨m20, m21, m22, m23⟩ := hX2e
  obtain ⟨m30, m31, m32, m33⟩ := hX3e
  obtain ⟨m40, m41, m42, m43⟩ := hX4e
  obtain ⟨m60, m61, m62, m63⟩ := hX6e
  have hBlen : ∀ b ∈ B, b.length = PROOF_CHUNK_SIZE := by
    intro b hbmem
    rw [hBdef] at hbmem
    simp only [List.mem_cons, List.not_mem_nil, or_false] at hbmem
    rcases hbmem with rfl | rfl | rfl | rfl | rfl | rfl | rfl | rfl | rfl |
      rfl | rfl | rfl | rfl | rfl | rfl | rfl | rfl | rfl | rfl | rfl | rfl |
      rfl | rfl | rfl | rfl | rfl | rfl | rfl | rfl | rfl | rfl | rfl | rfl <;>
      assumption
  have hSer : VeiledTransfer.serializeSigmaProof pf = B.flatten ++ pf.X7List.flatten := by
    rw [VeiledTransfer.serializeSigmaProof, h3eq, h4eq, h6eq, hX2eq, hX3eq,
      hX4eq, hX6eq, hBdef]
    simp [List.append_assoc]
  have hBbytes : B.flatten.length = SIGMA_PROOF_TRANSFER_SIZE := by
    rw [flatten_length_const B PROOF_CHUNK_SIZE hBlen]
    rw [hBdef]
    norm_num [PROOF_CHUNK_SIZE, SIGMA_PROOF_TRANSFER_SIZE]
  have hX7bytes : pf.X7List.flatten.length = 32 * (4 * k) := by
    rw [flatten_length_const pf.X7List 32 hX7e, hX7]
  rw [hSer, VeiledTransfer.deserializeSigmaProof]
  rw [if_neg (by
    simp only [List.length_append, hBbytes, hX7bytes,
      SIGMA_PROOF_TRANSFER_SIZE, PROOF_CHUNK_SIZE]
    omega)]
  rw [if_neg (by
    simp only [List.length_append, hBbytes, hX7bytes]
    omega)]
  rw [List.take_left' hBbytes, List.drop_left' hBbytes]
  simp only [chunkify_flatten B hBlen,
    chunkify_flatten pf.X7List (fun b hbm => hX7e b hbm)]
  rw [hBdef]
  simp only [List.getD_cons_zero, List.getD_cons_succ, List.drop_succ_cons,
    List.drop_nil, List.drop_zero, List.take_succ_cons, List.take_zero]
  rw [← h3eq, ← h4eq, ← h6eq, ← hX2eq, ← hX3eq, ← hX4eq, ← hX6eq]

/-- A concrete all-zero transfer sigma proof with no auditors, used to
witness the C9 round trip. -/
def c9Proof : VeiledTransferSigmaProofBytes :=
  { alpha1 := List.replicate 32 0
    alpha2 := List.replicate 32 0
    alpha3List := List.replicate 4 (List.replicate 32 0)
    alpha4List := List.replicate 4 (List.replicate 32 0)
    alpha5 := List.replicate 32 0
    alpha6List := List.replicate 4 (List.replicate 32 0)
    X1 := List.replicate 32 0
    X2List := List.replicate 4 (List.replicate 32 0)
    X3List := List.replicate 4 (List.replicate 32 0)
    X4List := List.replicate 4 (List.replicate 32 0)
    X5 := List.replicate 32 0
    X6List := List.replicate 4 (List.replicate 32 0)
    X7List := [] }

/-- Witness for C9 at the concrete proof `c9Proof` (k = 0). -/
theorem claimC9_witness :
    VeiledTransfer.deserializeSigmaProof (VeiledTransfer.serializeSigmaProof c9Proof) =
      Except.ok c9Proof :=
  claimC9_sigma_proof_roundtrip c9Proof 0
    (by simp [c9Proof]) (by simp [c9Proof]) (by simp [c9Proof])
    (by simp [c9Proof]) (by simp [c9Proof])
    (by simp [c9Proof]) (by intro b hb; simp [c9Proof, List.eq_of_mem_replicate hb])
    (by simp [c9Proof]) (by intro b hb; simp [c9Proof, List.eq_of_mem_replicate hb])
    (by simp [c9Proof]) (by intro b hb; simp [c9Proof, List.eq_of_mem_replicate hb])
    (by simp [c9Proof]) (by intro b hb; simp [c9Proof, List.eq_of_mem_replicate hb])
    (by simp [c9Proof]) (by intro b hb; simp [c9Proof, List.eq_of_mem_replicate hb])
    (by simp [c9Proof]) (by intro b hb; simp [c9Proof, List.eq_of_mem_replicate hb])
    (by simp [c9Proof]) (by intro b hb; simp [c9Proof, List.eq_of_mem_replicate hb])
    (by simp [c9Proof]) (by intro b hb; simp [c9Proof] at hb)

end VeiledSpec
